import Mathlib

/-!
Verification of the SSE command dispatcher in `BOT.py`.

The dispatcher's shared state is the module-level dict `sse_clients`
(recipient identifier -> list of pending command dicts), guarded by the
single `threading.Lock` `sse_lock`.  Every access to `sse_clients` in the
source is performed inside `with sse_lock: ...`, so each such critical
section is modelled as one atomic step on the registry state; an
interleaving of concurrent handlers is a sequence of such steps.

Commands are JSON objects; we model the subset of JSON values the
dispatcher actually stores (strings and null) and commands as ordered
association lists of string keys, exactly as the dict literals in
`send_command` (lines 384-389) and `operator_reply` (lines 954-960)
build them.
-/

inductive JVal where
  | jstr : String → JVal
  | jnull : JVal
deriving DecidableEq, Repr

abbrev Cmd := List (String × JVal)

/-- Dict lookup on a command object (first matching key). -/
def alookup (c : Cmd) (k : String) : Option JVal :=
  match c with
  | [] => none
  | (k', v) :: rest => if k' = k then some v else alookup rest k

/-!
Timestamps.  Every command the dispatcher enqueues carries
`datetime.datetime.now().isoformat()`.  We model a Python `datetime`
value and its `isoformat` rendering (zero-padded fields, microseconds
omitted when zero), so that the timestamp strings in the embedding are
produced exactly the way CPython renders them.
-/

structure PyDateTime where
  year : Nat
  month : Nat
  day : Nat
  hour : Nat
  minute : Nat
  second : Nat
  microsecond : Nat
deriving DecidableEq, Repr

/-- The range constraints `datetime.datetime` enforces on construction. -/
def ValidDT (dt : PyDateTime) : Prop :=
  1 ≤ dt.year ∧ dt.year ≤ 9999 ∧ 1 ≤ dt.month ∧ dt.month ≤ 12 ∧
  1 ≤ dt.day ∧ dt.day ≤ 31 ∧ dt.hour ≤ 23 ∧ dt.minute ≤ 59 ∧
  dt.second ≤ 59 ∧ dt.microsecond ≤ 999999

instance (dt : PyDateTime) : Decidable (ValidDT dt) := by
  unfold ValidDT; infer_instance

def digitChar (n : Nat) : Char := Char.ofNat (48 + n % 10)

def pad2 (n : Nat) : List Char := [digitChar (n / 10), digitChar n]

def pad4 (n : Nat) : List Char :=
  [digitChar (n / 1000), digitChar (n / 100), digitChar (n / 10), digitChar n]

def pad6 (n : Nat) : List Char :=
  [digitChar (n / 100000), digitChar (n / 10000), digitChar (n / 1000),
   digitChar (n / 100), digitChar (n / 10), digitChar n]

/-- `datetime.isoformat()`: `YYYY-MM-DDTHH:MM:SS[.ffffff]`. -/
def isoformat (dt : PyDateTime) : String :=
  ⟨pad4 dt.year ++ '-' :: pad2 dt.month ++ '-' :: pad2 dt.day ++
   'T' :: pad2 dt.hour ++ ':' :: pad2 dt.minute ++ ':' :: pad2 dt.second ++
   (if dt.microsecond = 0 then [] else '.' :: pad6 dt.microsecond)⟩

/-- Recognizer for the ISO-8601 shapes `isoformat` can emit. -/
def isIso8601 (s : String) : Bool :=
  match s.data with
  | [y1, y2, y3, y4, s1, m1, m2, s2, d1, d2, s3, h1, h2, s4, n1, n2, s5, c1, c2] =>
      [y1, y2, y3, y4, m1, m2, d1, d2, h1, h2, n1, n2, c1, c2].all Char.isDigit &&
      s1 == '-' && s2 == '-' && s3 == 'T' && s4 == ':' && s5 == ':'
  | [y1, y2, y3, y4, s1, m1, m2, s2, d1, d2, s3, h1, h2, s4, n1, n2, s5, c1, c2,
     dot, u1, u2, u3, u4, u5, u6] =>
      [y1, y2, y3, y4, m1, m2, d1, d2, h1, h2, n1, n2, c1, c2,
       u1, u2, u3, u4, u5, u6].all Char.isDigit &&
      s1 == '-' && s2 == '-' && s3 == 'T' && s4 == ':' && s5 == ':' && dot == '.'
  | _ => false

/-!
The registry `sse_clients`.  Python dicts have unique keys and preserve
insertion order; we model the dict as an association list where update
replaces in place and a fresh key is appended at the end.
-/

abbrev Registry := List (String × List Cmd)

def lookupQ : Registry → String → Option (List Cmd)
  | [], _ => none
  | (k', q) :: rest, k => if k' = k then some q else lookupQ rest k

def setQ : Registry → String → List Cmd → Registry
  | [], k, q => [(k, q)]
  | (k', q') :: rest, k, q =>
      if k' = k then (k, q) :: rest else (k', q') :: setQ rest k q

def keysOf (reg : Registry) : List String := reg.map Prod.fst

/-!
The two producer endpoints and the health endpoint.
-/

/-- Result of one HTTP handler invocation: status code, error payload (if
any) and the registry state after the call. -/
structure ApiResult where
  status : Nat
  error : Option String
  reg : Registry

/-- The `command_data` dict literal of `send_command` (lines 384-389). -/
def mkBotCommand (action : String) (payment_id : Option String) (now : PyDateTime) : Cmd :=
  [("type", JVal.jstr "bot_command"),
   ("action", JVal.jstr action),
   ("payment_id", match payment_id with | none => JVal.jnull | some p => JVal.jstr p),
   ("timestamp", JVal.jstr (isoformat now))]

/-- The `command_data` dict literal of `operator_reply` (lines 954-960). -/
def mkChatMessage (message : String) (message_id : String) (now : PyDateTime) : Cmd :=
  [("type", JVal.jstr "chat_message"),
   ("action", JVal.jstr "operator_reply"),
   ("message", JVal.jstr message),
   ("message_id", JVal.jstr message_id),
   ("timestamp", JVal.jstr (isoformat now))]

/-- `send_command` (lines 363-416).  `none` models a field missing from the
request JSON; the `if not user_id or not action` guard also rejects the
falsy empty string.  On the happy path the handler appends the command to
the recipient queue (creating it first if absent) under `sse_lock`. -/
def send_command (reg : Registry) (user_id action payment_id : Option String)
    (now : PyDateTime) : ApiResult :=
  match user_id, action with
  | some u, some a =>
      if u = "" ∨ a = "" then
        { status := 400, error := some "Missing user_id or action", reg := reg }
      else
        let q := (lookupQ reg u).getD []
        { status := 200, error := none,
          reg := setQ reg u (q ++ [mkBotCommand a payment_id now]) }
  | _, _ => { status := 400, error := some "Missing user_id or action", reg := reg }

/-- `operator_reply` (lines 923-987).  The malformed-request check (line
934) precedes the database write, which precedes the enqueue; `dbOk`
models whether `get_db_connection()` succeeds.  The `message_id` string
is derived from the current clock (line 953) and is passed in here. -/
def operator_reply (reg : Registry) (user_id message : Option String)
    (message_id : String) (now : PyDateTime) (dbOk : Bool) : ApiResult :=
  match user_id, message with
  | some u, some m =>
      if u = "" ∨ m = "" then
        { status := 400, error := some "Missing user_id or message", reg := reg }
      else if dbOk then
        let q := (lookupQ reg u).getD []
        { status := 200, error := none,
          reg := setQ reg u (q ++ [mkChatMessage m message_id now]) }
      else
        { status := 500, error := some "Database connection failed", reg := reg }
  | _, _ => { status := 400, error := some "Missing user_id or message", reg := reg }

/-- `health` (lines 418-435): `users_count = len(sse_clients)` and
`total_commands = sum(len(commands) for commands in sse_clients.values())`. -/
def health (reg : Registry) : Nat × Nat :=
  (reg.length, (reg.map (fun p => p.2.length)).sum)

/-- The spec's `sizeOf` observability query: backlog length, zero for a
recipient with no queue ever created. -/
def sizeOfQ (reg : Registry) (k : String) : Nat :=
  ((lookupQ reg k).getD []).length

/-!
The stream session (`sse` endpoint, lines 75-189).

The generator `event_stream` is modelled as a function of the initial
registry and an environment describing the behaviour of the connection:

* `drainOk i`  — whether the `i`-th send during the connection-open
  backlog drain succeeds (line 99).  A failure lands in the `except` at
  line 104 whose handler re-acquires `sse_lock` (line 107) while the
  session already holds it (acquired at line 89 for the whole drain);
  `sse_lock` is a non-reentrant `threading.Lock` (line 52), so the
  handler blocks forever: the session deadlocks inside the lock, the
  failed command is never re-appended (line 110 is unreachable) and no
  further event is ever emitted;
* `drainCut`   — `some i` if the peer disconnects (GeneratorExit at the
  yield) just before the `i`-th send of the drain; the per-command
  `except Exception` does not catch `GeneratorExit`, so the generator
  exits at that point;
* `hbOk i`     — whether the heartbeat send at tick `i` succeeds
  (line 127; failure hits the `except ... break` at lines 129-131);
* `sendOk j`   — whether the `j`-th steady-state command send succeeds
  (line 143; failure hits the `except ... insert(0, ...) ... break` at
  lines 148-152);
* `ticks`      — the number of iterations of the `while True` loop the
  peer stays connected for (then GeneratorExit);
* `clock i`    — `datetime.datetime.now().isoformat()` at tick `i`.

Time is discretized in ticks of 50 ms, the `time.sleep(0.05)` at the
bottom of the loop (line 161): iteration `i` of the loop observes
`current_time = i` ticks.  The heartbeat interval of 15 s (line 116) is
300 ticks and the command-check interval of 50 ms (line 118) is 1 tick.
-/

inductive Event where
  | connected : Event
  | heartbeat : String → Event
  | cmd : Cmd → Event
deriving DecidableEq, Repr

structure SessionEnv where
  drainOk : Nat → Bool
  drainCut : Option Nat
  hbOk : Nat → Bool
  sendOk : Nat → Bool
  clock : Nat → String
  ticks : Nat

/-- How the connection-open drain loop ends. -/
inductive DrainOutcome where
  | completed : DrainOutcome
  | disconnected : DrainOutcome
  | deadlocked : DrainOutcome
deriving DecidableEq, Repr

/-- The connection-open drain loop (lines 95-110) applied to the copied
`commands_to_send`.  Returns the emitted events (the successful sends,
in order, up to the first failure or disconnect) and how the loop ended:
`completed` when every send succeeded, `disconnected` when GeneratorExit
propagated out mid-drain, and `deadlocked` when a send failed — the
handler at line 107 then re-acquires the non-reentrant `sse_lock` the
session has held since line 89 and blocks forever, so the re-append at
line 110 never executes and the loop never advances past the failed
command. -/
def drainSend : List Cmd → (Nat → Bool) → Option Nat → Nat → List Event × DrainOutcome
  | [], _, _, _ => ([], DrainOutcome.completed)
  | c :: rest, ok, cut, i =>
      if cut = some i then ([], DrainOutcome.disconnected)
      else if ok i then
        let r := drainSend rest ok cut (i + 1)
        (Event.cmd c :: r.1, r.2)
      else ([], DrainOutcome.deadlocked)

/-- The length of the maximal all-sends-succeed initial segment. -/
def okPrefixLen (ok : Nat → Bool) : Nat → List Cmd → Nat
  | _, [] => 0
  | i, _ :: rest => if ok i then okPrefixLen ok (i + 1) rest + 1 else 0

/-- The steady-state burst `while sse_clients[user_id]: ... pop(0) ...`
(lines 140-152).  On a send failure the popped command is reinserted at
the front (line 151) and the inner loop breaks; the returned `Nat` is
the updated send counter. -/
def pollBurst : List Cmd → (Nat → Bool) → Nat → List Event × List Cmd × Nat
  | [], _, i => ([], [], i)
  | c :: rest, ok, i =>
      if ok i then
        let r := pollBurst rest ok (i + 1)
        (Event.cmd c :: r.1, r.2.1, r.2.2)
      else ([], c :: rest, i + 1)

/-- Loop-local state of `event_stream`'s steady loop: the current tick
(`current_time`), `last_heartbeat`, `last_command_check`, the running
send counter, and the recipient's live queue. -/
structure SState where
  t : Nat
  lastHb : Nat
  lastCheck : Nat
  sendIdx : Nat
  q : List Cmd
deriving Repr

/-- The command-check half of one loop iteration (lines 134-158) followed
by the `time.sleep(0.05)` tick advance. -/
def pollPhase (env : SessionEnv) (s : SState) (evs : List Event) :
    List Event × SState × Bool :=
  if 1 ≤ s.t - s.lastCheck then
    let r := pollBurst s.q env.sendOk s.sendIdx
    (evs ++ r.1,
     { t := s.t + 1, lastHb := s.lastHb, lastCheck := s.t, sendIdx := r.2.2, q := r.2.1 },
     true)
  else (evs, { s with t := s.t + 1 }, true)

/-- One iteration of the `while True` loop (lines 121-161): heartbeat
check first (lines 125-131; a failed heartbeat send breaks the loop),
then the command check, then the sleep. -/
def steadyStep (env : SessionEnv) (s : SState) : List Event × SState × Bool :=
  if 300 ≤ s.t - s.lastHb then
    if env.hbOk s.t then
      pollPhase env { s with lastHb := s.t } [Event.heartbeat (env.clock s.t)]
    else ([], s, false)
  else pollPhase env s []

/-- Run the steady loop for at most `n` iterations (the peer disconnects
after `n`); stops early when a heartbeat send failure breaks the loop. -/
def runSteady (env : SessionEnv) : Nat → SState → List Event × SState
  | 0, s => ([], s)
  | n + 1, s =>
      match steadyStep env s with
      | (evs, s', true) =>
          let r := runSteady env n s'
          (evs ++ r.1, r.2)
      | (evs, s', false) => (evs, s')

/-- Session teardown (lines 163-180): the `except GeneratorExit`,
`except BrokenPipeError`, generic `except` and `finally` blocks read the
queue length for logging and deliberately leave `sse_clients` untouched. -/
def teardown (reg : Registry) (user_id : String) : Registry :=
  let _queue_length := ((lookupQ reg user_id).getD []).length
  reg

/-- How a session run ends: `closed` when the generator exits (peer
disconnect, heartbeat failure, or mid-drain GeneratorExit) so the
teardown handlers run or the generator unwinds; `deadlocked` when the
session hangs forever at line 107 still holding `sse_lock`. -/
inductive SessionOutcome where
  | closed : SessionOutcome
  | deadlocked : SessionOutcome
deriving DecidableEq, Repr

structure SessionResult where
  events : List Event
  reg : Registry
  outcome : SessionOutcome

/-- Everything `event_stream` does after the initial `connected` yield:
ensure the key exists (lines 81-83), drain the backlog in one burst
(lines 89-113: copy the list, CLEAR the queue at line 93, send one by
one), then run the steady loop, then tear down.  The line-93 clear is
never compensated: on a completed drain nothing remains, on a mid-drain
disconnect the unsent remainder is lost with the generator, and on a
send failure the session deadlocks before the re-append at line 110, so
the queue stays empty in every case.  Registry writes performed inside
the session's critical sections are flushed with `setQ`. -/
def sessionAfterConnect (env : SessionEnv) (u : String) (reg1 : Registry) :
    List Event × Registry × SessionOutcome :=
  let q1 := (lookupQ reg1 u).getD []
  if q1.isEmpty then
    let r := runSteady env env.ticks ⟨0, 0, 0, 0, []⟩
    (r.1, teardown (setQ reg1 u r.2.q) u, SessionOutcome.closed)
  else
    let dr := drainSend q1 env.drainOk env.drainCut 0
    let reg2 := setQ reg1 u []
    match dr.2 with
    | DrainOutcome.completed =>
        let r := runSteady env env.ticks ⟨0, 0, 0, 0, []⟩
        (dr.1 ++ r.1, teardown (setQ reg2 u r.2.q) u, SessionOutcome.closed)
    | DrainOutcome.disconnected => (dr.1, reg2, SessionOutcome.closed)
    | DrainOutcome.deadlocked => (dr.1, reg2, SessionOutcome.deadlocked)

/-- The whole `openStream` operation: the generator first yields the
`connected` event (line 79), then proceeds as `sessionAfterConnect`. -/
def openStream (env : SessionEnv) (user_id : String) (reg : Registry) : SessionResult :=
  let reg1 :=
    match lookupQ reg user_id with
    | some _ => reg
    | none => setQ reg user_id []
  let r := sessionAfterConnect env user_id reg1
  { events := Event.connected :: r.1, reg := r.2.1, outcome := r.2.2 }

/-- The command payloads delivered on the wire, in order. -/
def deliveredCmds (evs : List Event) : List Cmd :=
  evs.filterMap (fun e => match e with | Event.cmd c => some c | _ => none)

/-!
Trace-level semantics.  Each constructor is one `with sse_lock:` critical
section of the source, so an arbitrary interleaving of concurrent
producers and sessions is a list of these atomic steps.
-/

inductive DispatcherOp where
  | enqueueBot (u : String) (action : Option String) (payment_id : Option String)
      (now : PyDateTime)
  | enqueueChat (u : String) (message : Option String) (message_id : String)
      (now : PyDateTime) (dbOk : Bool)
  | register (u : String)
  | drain (u : String) (ok : Nat → Bool) (cut : Option Nat)
  | poll (u : String) (ok : Nat → Bool) (idx : Nat)
  | close (u : String)

/-- Registry effect of one atomic step.  `register` is the key-ensure of
lines 81-83; `drain` is the critical section of lines 89-113 (no effect
when the queue is absent or empty, line 90; otherwise the queue is
cleared at line 93 and stays cleared whether the drain completes,
disconnects, or deadlocks at line 107 — the re-append at line 110 is
unreachable); `poll` is the critical section of lines 135-158 (same
guard, line 136); `close` is teardown. -/
def applyOp (reg : Registry) : DispatcherOp → Registry
  | DispatcherOp.enqueueBot u a pid now => (send_command reg (some u) a pid now).reg
  | DispatcherOp.enqueueChat u m mid now dbOk =>
      (operator_reply reg (some u) m mid now dbOk).reg
  | DispatcherOp.register u =>
      match lookupQ reg u with
      | some _ => reg
      | none => setQ reg u []
  | DispatcherOp.drain u _ _ =>
      match (lookupQ reg u).getD [] with
      | [] => reg
      | _ :: _ => setQ reg u []
  | DispatcherOp.poll u ok idx =>
      match (lookupQ reg u).getD [] with
      | [] => reg
      | c :: rest => setQ reg u (pollBurst (c :: rest) ok idx).2.1
  | DispatcherOp.close u => teardown reg u

def runOps (reg : Registry) : List DispatcherOp → Registry
  | [] => reg
  | op :: rest => runOps (applyOp reg op) rest

/-- Number of steps of a trace that create the registry entry for `k`
(the key is absent before the step and present after it). -/
def creations (reg : Registry) : List DispatcherOp → String → Nat
  | [], _ => 0
  | op :: rest, k =>
      (if k ∉ keysOf reg ∧ k ∈ keysOf (applyOp reg op) then 1 else 0)
      + creations (applyOp reg op) rest k

/-!
Valid enqueue requests, used to state the delivery claims: a producer
that passes the `if not user_id or not ...` boundary check.
-/

inductive EnqReq where
  | bot (action : String) (payment_id : Option String) (now : PyDateTime)
  | chat (message : String) (message_id : String) (now : PyDateTime)

def reqCmd : EnqReq → Cmd
  | EnqReq.bot a pid now => mkBotCommand a pid now
  | EnqReq.chat m mid now => mkChatMessage m mid now

def ValidReq : EnqReq → Prop
  | EnqReq.bot a _ _ => a ≠ ""
  | EnqReq.chat m _ _ => m ≠ ""

instance (r : EnqReq) : Decidable (ValidReq r) := by
  cases r <;> (unfold ValidReq; infer_instance)

/-- One producer call on the success path of the corresponding handler. -/
def enqueueReq (reg : Registry) (u : String) : EnqReq → Registry
  | EnqReq.bot a pid now => (send_command reg (some u) (some a) pid now).reg
  | EnqReq.chat m mid now => (operator_reply reg (some u) (some m) mid now true).reg

def enqueueAll (reg : Registry) (u : String) : List EnqReq → Registry
  | [] => reg
  | r :: rest => enqueueAll (enqueueReq reg u r) u rest

/-!
Concrete fixtures used by the witness theorems and the counterexample.
-/

def dtW : PyDateTime := ⟨2024, 5, 1, 12, 0, 0, 0⟩

def envAllOk : SessionEnv :=
  { drainOk := fun _ => true, drainCut := none, hbOk := fun _ => true,
    sendOk := fun _ => true, clock := fun _ => "2024-05-01T12:00:00", ticks := 0 }

def rsW : List EnqReq :=
  [EnqReq.bot "sms" (some "p1") dtW, EnqReq.chat "hello" "msg_1" dtW]

def cmdA : Cmd := mkBotCommand "sms" (some "p1") dtW

def cmdB : Cmd := mkBotCommand "push" (some "p1") dtW

def regW : Registry := [("u1", [cmdA, cmdB])]

/-!
C2: what actually happens on a send failure.
-/

def envX : SessionEnv :=
  { drainOk := fun i => i != 0, drainCut := none, hbOk := fun _ => true,
    sendOk := fun _ => true, clock := fun _ => "2024-05-01T12:00:00", ticks := 0 }

def envHbFail : SessionEnv :=
  { drainOk := fun _ => true, drainCut := none, hbOk := fun _ => false,
    sendOk := fun _ => true, clock := fun _ => "T", ticks := 1 }

def sHb : SState := ⟨300, 0, 0, 0, []⟩

def envTicks : SessionEnv :=
  { drainOk := fun _ => true, drainCut := none, hbOk := fun _ => true,
    sendOk := fun _ => true, clock := fun _ => "T", ticks := 301 }

def opsW : List DispatcherOp :=
  [DispatcherOp.register "u1", DispatcherOp.register "u1",
   DispatcherOp.enqueueBot "u1" (some "sms") (some "p1") dtW]

/-!
C6: malformed producer requests are rejected at the boundary.
-/

/-- A field that Python's `if not x` guard treats as missing: absent from
the request JSON, or the falsy empty string. -/
def isMissing : Option String → Bool
  | none => true
  | some s => s == ""

def goodCmd (c : Cmd) : Prop :=
  (alookup c "type" = some (JVal.jstr "bot_command")
    ∨ alookup c "type" = some (JVal.jstr "chat_message"))
  ∧ ∃ ts, alookup c "timestamp" = some (JVal.jstr ts) ∧ isIso8601 ts = true

/-- All commands held in all queues are well-formed. -/
def GoodReg (reg : Registry) : Prop :=
  ∀ k q, lookupQ reg k = some q → ∀ c ∈ q, goodCmd c

/-- Trace steps carry valid wall-clock readings. -/
def opValid : DispatcherOp → Prop
  | DispatcherOp.enqueueBot _ _ _ now => ValidDT now
  | DispatcherOp.enqueueChat _ _ _ now _ => ValidDT now
  | _ => True

instance (op : DispatcherOp) : Decidable (opValid op) := by
  cases op <;> (unfold opValid; infer_instance)

def opsV : List DispatcherOp :=
  [DispatcherOp.enqueueBot "u1" (some "sms") (some "p1") dtW]

/-!
Theorems.
-/

/-!
Basic registry lemmas.
-/

theorem keysOf_nil : keysOf [] = [] := rfl

theorem keysOf_cons (p : String × List Cmd) (rest : Registry) :
    keysOf (p :: rest) = p.1 :: keysOf rest := rfl

theorem lookupQ_setQ (reg : Registry) (k k' : String) (q : List Cmd) :
    lookupQ (setQ reg k q) k' = if k = k' then some q else lookupQ reg k' := by
  induction reg with
  | nil => simp [setQ, lookupQ]
  | cons p rest ih =>
      obtain ⟨k₀, q₀⟩ := p
      by_cases h : k₀ = k
      · subst h
        by_cases h' : k₀ = k' <;> simp [setQ, lookupQ, h']
      · by_cases h' : k₀ = k'
        · subst h'
          have hk : ¬ k = k₀ := fun hh => h hh.symm
          simp [setQ, lookupQ, h, hk]
        · simp [setQ, lookupQ, h, h', ih]

theorem lookupQ_eq_none_iff (reg : Registry) (k : String) :
    lookupQ reg k = none ↔ k ∉ keysOf reg := by
  induction reg with
  | nil => simp [lookupQ, keysOf]
  | cons p rest ih =>
      obtain ⟨k₀, q₀⟩ := p
      by_cases h : k₀ = k
      · subst h
        simp [lookupQ, keysOf_cons]
      · have hk : ¬ k = k₀ := fun hh => h hh.symm
        simp [lookupQ, keysOf_cons, h, hk, ih]

theorem keysOf_setQ_mem (reg : Registry) (k : String) (q : List Cmd)
    (h : k ∈ keysOf reg) : keysOf (setQ reg k q) = keysOf reg := by
  induction reg with
  | nil => simp [keysOf] at h
  | cons p rest ih =>
      obtain ⟨k₀, q₀⟩ := p
      by_cases hk : k₀ = k
      · subst hk
        simp [setQ, keysOf_cons]
      · rw [keysOf_cons] at h
        have hk' : ¬ k = k₀ := fun hh => hk hh.symm
        rcases List.mem_cons.mp h with h1 | h1
        · exact absurd h1 hk'
        · simp [setQ, hk, keysOf_cons, ih h1]

theorem keysOf_setQ_not_mem (reg : Registry) (k : String) (q : List Cmd)
    (h : k ∉ keysOf reg) : keysOf (setQ reg k q) = keysOf reg ++ [k] := by
  induction reg with
  | nil => simp [setQ, keysOf]
  | cons p rest ih =>
      obtain ⟨k₀, q₀⟩ := p
      rw [keysOf_cons] at h
      have h1 : ¬ k = k₀ := fun hh => h (by simp [hh])
      have h2 : k ∉ keysOf rest := fun hh => h (by simp [hh])
      have hk : ¬ k₀ = k := fun hh => h1 hh.symm
      simp [setQ, hk, keysOf_cons, ih h2]

theorem mem_keysOf_setQ (reg : Registry) (k k' : String) (q : List Cmd)
    (h : k' ∈ keysOf reg) : k' ∈ keysOf (setQ reg k q) := by
  by_cases hm : k ∈ keysOf reg
  · rw [keysOf_setQ_mem reg k q hm]; exact h
  · rw [keysOf_setQ_not_mem reg k q hm]; exact List.mem_append_left _ h

theorem nodup_keysOf_setQ (reg : Registry) (k : String) (q : List Cmd)
    (h : (keysOf reg).Nodup) : (keysOf (setQ reg k q)).Nodup := by
  by_cases hm : k ∈ keysOf reg
  · rw [keysOf_setQ_mem reg k q hm]; exact h
  · rw [keysOf_setQ_not_mem reg k q hm]
    rw [List.nodup_append]
    exact ⟨h, List.nodup_singleton k, fun a ha hb => by
      simp only [List.mem_singleton] at hb
      exact hm (hb ▸ ha)⟩

theorem length_setQ (reg : Registry) (k : String) (q : List Cmd) :
    reg.length ≤ (setQ reg k q).length := by
  have h1 : (keysOf reg).length = reg.length := List.length_map _ _
  have h2 : (keysOf (setQ reg k q)).length = (setQ reg k q).length :=
    List.length_map _ _
  by_cases hm : k ∈ keysOf reg
  · rw [← h1, ← h2, keysOf_setQ_mem reg k q hm]
  · rw [← h1, ← h2, keysOf_setQ_not_mem reg k q hm, List.length_append]
    omega

theorem okPrefixLen_all_true (q : List Cmd) (ok : Nat → Bool)
    (h : ∀ j, ok j = true) (i : Nat) : okPrefixLen ok i q = q.length := by
  induction q generalizing i with
  | nil => rfl
  | cons c rest ih => simp [okPrefixLen, h i, ih]

theorem drainSend_characterization (q : List Cmd) (ok : Nat → Bool) (i : Nat) :
    drainSend q ok none i
      = ((q.take (okPrefixLen ok i q)).map Event.cmd,
         if okPrefixLen ok i q = q.length then DrainOutcome.completed
         else DrainOutcome.deadlocked) := by
  induction q generalizing i with
  | nil => simp [drainSend, okPrefixLen]
  | cons c rest ih =>
      by_cases h : ok i = true
      · simp [drainSend, okPrefixLen, h, ih (i + 1), List.take_succ_cons,
          add_left_inj]
      · have hb : ok i = false := eq_false_of_ne_true h
        simp [drainSend, okPrefixLen, hb]

theorem drainSend_all_ok (q : List Cmd) (ok : Nat → Bool) (i : Nat)
    (h : ∀ j, ok j = true) :
    drainSend q ok none i = (q.map Event.cmd, DrainOutcome.completed) := by
  rw [drainSend_characterization, okPrefixLen_all_true q ok h i, if_pos rfl,
    List.take_length]

theorem drainSend_first_fail (c : Cmd) (rest : List Cmd) (ok : Nat → Bool) (i : Nat)
    (h : ok i = false) :
    drainSend (c :: rest) ok none i = ([], DrainOutcome.deadlocked) := by
  simp [drainSend, h]

theorem pollBurst_mem_left (q : List Cmd) (ok : Nat → Bool) (i : Nat) (c : Cmd)
    (h : c ∈ (pollBurst q ok i).2.1) : c ∈ q := by
  induction q generalizing i with
  | nil => simp [pollBurst] at h
  | cons c₀ rest ih =>
      simp only [pollBurst] at h
      by_cases hok : ok i
      · simp only [hok, if_pos rfl] at h
        exact List.mem_cons_of_mem _ (ih (i + 1) h)
      · simp only [eq_false_of_ne_true hok, Bool.false_eq_true, if_false] at h
        exact h

/-- The poll burst sends an initial segment of the queue and leaves the
rest, in order. -/
theorem pollBurst_split (q : List Cmd) (ok : Nat → Bool) (i : Nat) :
    ∃ n, (pollBurst q ok i).1 = (q.take n).map Event.cmd
      ∧ (pollBurst q ok i).2.1 = q.drop n := by
  induction q generalizing i with
  | nil => exact ⟨0, rfl, rfl⟩
  | cons c rest ih =>
      by_cases hok : ok i
      · obtain ⟨n, h1, h2⟩ := ih (i + 1)
        refine ⟨n + 1, ?_, ?_⟩
        · simp [pollBurst, hok, h1]
        · simp [pollBurst, hok, h2]
      · refine ⟨0, ?_, ?_⟩
        · simp [pollBurst, eq_false_of_ne_true hok]
        · simp [pollBurst, eq_false_of_ne_true hok]

/-!
Shapes of emitted events.
-/

theorem deliveredCmds_nil : deliveredCmds [] = [] := rfl

theorem deliveredCmds_append (a b : List Event) :
    deliveredCmds (a ++ b) = deliveredCmds a ++ deliveredCmds b :=
  List.filterMap_append a b _

theorem deliveredCmds_connected_cons (l : List Event) :
    deliveredCmds (Event.connected :: l) = deliveredCmds l := rfl

theorem deliveredCmds_map_cmd (q : List Cmd) :
    deliveredCmds (q.map Event.cmd) = q := by
  induction q with
  | nil => rfl
  | cons c rest ih => simp [deliveredCmds, List.filterMap_cons] at ih ⊢; exact ih

theorem deliveredCmds_of_heartbeats (l : List Event)
    (h : ∀ e ∈ l, ∃ ts, e = Event.heartbeat ts) : deliveredCmds l = [] := by
  induction l with
  | nil => rfl
  | cons e rest ih =>
      obtain ⟨ts, rfl⟩ := h e (List.mem_cons_self _ _)
      simp only [deliveredCmds, List.filterMap_cons] at ih ⊢
      exact ih fun e he => h e (List.mem_cons_of_mem _ he)

theorem drainSend_events_shape (q : List Cmd) (ok : Nat → Bool) (cut : Option Nat)
    (i : Nat) : ∀ e ∈ (drainSend q ok cut i).1, ∃ c, e = Event.cmd c := by
  induction q generalizing i with
  | nil => simp [drainSend]
  | cons c₀ rest ih =>
      intro e he
      simp only [drainSend] at he
      by_cases hcut : cut = some i
      · simp [hcut] at he
      · rw [if_neg hcut] at he
        by_cases hok : ok i
        · simp only [hok, if_pos rfl] at he
          rcases List.mem_cons.mp he with h1 | h1
          · exact ⟨c₀, h1⟩
          · exact ih (i + 1) e h1
        · simp only [eq_false_of_ne_true hok, Bool.false_eq_true, if_false] at he
          exact absurd he (List.not_mem_nil e)

theorem pollBurst_events_shape (q : List Cmd) (ok : Nat → Bool) (i : Nat) :
    ∀ e ∈ (pollBurst q ok i).1, ∃ c, e = Event.cmd c := by
  induction q generalizing i with
  | nil => simp [pollBurst]
  | cons c₀ rest ih =>
      intro e he
      simp only [pollBurst] at he
      by_cases hok : ok i
      · simp only [hok, if_pos rfl] at he
        rcases List.mem_cons.mp he with h1 | h1
        · exact ⟨c₀, h1⟩
        · exact ih (i + 1) e h1
      · simp only [eq_false_of_ne_true hok, Bool.false_eq_true, if_false] at he
        exact absurd he (List.not_mem_nil e)

theorem pollPhase_events (env : SessionEnv) (s : SState) (evs : List Event) :
    ∀ e ∈ (pollPhase env s evs).1,
      e ∈ evs ∨ ∃ c, e = Event.cmd c := by
  intro e he
  unfold pollPhase at he
  by_cases hc : 1 ≤ s.t - s.lastCheck
  · rw [if_pos hc] at he
    rcases List.mem_append.mp he with h1 | h1
    · exact Or.inl h1
    · exact Or.inr (pollBurst_events_shape s.q env.sendOk s.sendIdx e h1)
  · rw [if_neg hc] at he
    exact Or.inl he

theorem steadyStep_events_shape (env : SessionEnv) (s : SState) :
    ∀ e ∈ (steadyStep env s).1,
      (∃ ts, e = Event.heartbeat ts) ∨ ∃ c, e = Event.cmd c := by
  intro e he
  unfold steadyStep at he
  by_cases hb : 300 ≤ s.t - s.lastHb
  · rw [if_pos hb] at he
    by_cases hok : env.hbOk s.t
    · rw [if_pos hok] at he
      rcases pollPhase_events env _ _ e he with h1 | h1
      · exact Or.inl ⟨env.clock s.t, List.mem_singleton.mp h1⟩
      · exact Or.inr h1
    · simp only [eq_false_of_ne_true hok, Bool.false_eq_true, if_false] at he
      exact absurd he (List.not_mem_nil e)
  · rw [if_neg hb] at he
    rcases pollPhase_events env _ _ e he with h1 | h1
    · exact absurd h1 (List.not_mem_nil e)
    · exact Or.inr h1

theorem runSteady_events_shape (env : SessionEnv) (n : Nat) (s : SState) :
    ∀ e ∈ (runSteady env n s).1,
      (∃ ts, e = Event.heartbeat ts) ∨ ∃ c, e = Event.cmd c := by
  induction n generalizing s with
  | zero => simp [runSteady]
  | succ n ih =>
      intro e he
      unfold runSteady at he
      rcases hstep : steadyStep env s with ⟨evs, s', cont⟩
      rw [hstep] at he
      cases cont with
      | true =>
          simp only at he
          rcases List.mem_append.mp he with h1 | h1
          · exact steadyStep_events_shape env s e (by rw [hstep]; exact h1)
          · exact ih s' e h1
      | false =>
          simp only at he
          exact steadyStep_events_shape env s e (by rw [hstep]; exact he)

/-!
The steady loop on an empty queue: only heartbeats, and the queue stays
empty.
-/

theorem pollBurst_nil (ok : Nat → Bool) (i : Nat) : pollBurst [] ok i = ([], [], i) := rfl

theorem steadyStep_empty (env : SessionEnv) (s : SState) (hq : s.q = []) :
    (steadyStep env s).2.1.q = []
    ∧ ∀ e ∈ (steadyStep env s).1, ∃ ts, e = Event.heartbeat ts := by
  unfold steadyStep pollPhase
  by_cases hb : 300 ≤ s.t - s.lastHb
  · by_cases hok : env.hbOk s.t
    · rw [if_pos hb, if_pos hok]
      by_cases hc : 1 ≤ s.t - s.lastCheck
      · simp only [if_pos hc, hq, pollBurst_nil]
        exact ⟨by trivial, by intro e he; simp at he; exact ⟨env.clock s.t, he⟩⟩
      · simp only [if_neg hc]
        exact ⟨hq, by intro e he; simp at he; exact ⟨env.clock s.t, he⟩⟩
    · simp only [if_pos hb, eq_false_of_ne_true hok, Bool.false_eq_true, if_false]
      exact ⟨hq, by intro e he; simp at he⟩
  · rw [if_neg hb]
    by_cases hc : 1 ≤ s.t - s.lastCheck
    · simp only [if_pos hc, hq, pollBurst_nil]
      exact ⟨by trivial, by intro e he; simp at he⟩
    · simp only [if_neg hc]
      exact ⟨hq, by intro e he; simp at he⟩

theorem runSteady_empty (env : SessionEnv) (n : Nat) (s : SState) (hq : s.q = []) :
    (∀ e ∈ (runSteady env n s).1, ∃ ts, e = Event.heartbeat ts)
    ∧ (runSteady env n s).2.q = [] := by
  induction n generalizing s with
  | zero => exact ⟨by simp [runSteady], hq⟩
  | succ n ih =>
      unfold runSteady
      rcases hstep : steadyStep env s with ⟨evs, s', cont⟩
      have hse := steadyStep_empty env s hq
      rw [hstep] at hse
      cases cont with
      | true =>
          simp only
          obtain ⟨hrecall, hrecq⟩ := ih s' hse.1
          refine ⟨?_, hrecq⟩
          intro e he
          rcases List.mem_append.mp he with h1 | h1
          · exact hse.2 e h1
          · exact hrecall e h1
      | false =>
          simp only
          exact ⟨hse.2, hse.1⟩

/-!
Delivered commands of a full session.
-/

theorem sessionAfterConnect_events_shape (env : SessionEnv) (u : String)
    (reg1 : Registry) :
    ∀ e ∈ (sessionAfterConnect env u reg1).1,
      (∃ ts, e = Event.heartbeat ts) ∨ ∃ c, e = Event.cmd c := by
  intro e he
  unfold sessionAfterConnect at he
  by_cases h1 : ((lookupQ reg1 u).getD []).isEmpty
  · rw [if_pos h1] at he
    exact runSteady_events_shape env env.ticks _ e he
  · rw [if_neg h1] at he
    rcases hdr : (drainSend ((lookupQ reg1 u).getD []) env.drainOk env.drainCut 0).2
      with _ | _ | _
    · simp only [hdr] at he
      rcases List.mem_append.mp he with hm | hm
      · exact Or.inr (drainSend_events_shape _ _ _ _ e hm)
      · exact runSteady_events_shape env env.ticks _ e hm
    · simp only [hdr] at he
      exact Or.inr (drainSend_events_shape _ _ _ _ e he)
    · simp only [hdr] at he
      exact Or.inr (drainSend_events_shape _ _ _ _ e he)

theorem sessionAfterConnect_delivered (env : SessionEnv) (u : String)
    (reg1 : Registry) (hcut : env.drainCut = none)
    (hok : ∀ i, env.drainOk i = true) :
    deliveredCmds (sessionAfterConnect env u reg1).1 = (lookupQ reg1 u).getD [] := by
  unfold sessionAfterConnect
  by_cases h1 : ((lookupQ reg1 u).getD []).isEmpty
  · rw [if_pos h1]
    rw [deliveredCmds_of_heartbeats _ (runSteady_empty env env.ticks _ rfl).1]
    exact (List.isEmpty_iff.mp h1).symm
  · rw [if_neg h1]
    rw [hcut, drainSend_all_ok _ env.drainOk 0 hok]
    show deliveredCmds (((lookupQ reg1 u).getD []).map Event.cmd
        ++ (runSteady env env.ticks ⟨0, 0, 0, 0, []⟩).1) = (lookupQ reg1 u).getD []
    rw [deliveredCmds_append, deliveredCmds_map_cmd,
      deliveredCmds_of_heartbeats _ (runSteady_empty env env.ticks _ rfl).1,
      List.append_nil]

theorem openStream_events_eq (env : SessionEnv) (u : String) (reg : Registry) :
    (openStream env u reg).events
      = Event.connected :: (sessionAfterConnect env u
          (match lookupQ reg u with
           | some _ => reg
           | none => setQ reg u [])).1 := rfl

theorem openStream_reg_eq (env : SessionEnv) (u : String) (reg : Registry) :
    (openStream env u reg).reg
      = (sessionAfterConnect env u
          (match lookupQ reg u with
           | some _ => reg
           | none => setQ reg u [])).2.1 := rfl

theorem openStream_outcome_eq (env : SessionEnv) (u : String) (reg : Registry) :
    (openStream env u reg).outcome
      = (sessionAfterConnect env u
          (match lookupQ reg u with
           | some _ => reg
           | none => setQ reg u [])).2.2 := rfl

theorem openStream_delivered_backlog (env : SessionEnv) (u : String) (reg : Registry)
    (hcut : env.drainCut = none) (hok : ∀ i, env.drainOk i = true) :
    deliveredCmds (openStream env u reg).events = (lookupQ reg u).getD [] := by
  rw [openStream_events_eq, deliveredCmds_connected_cons]
  rcases hl : lookupQ reg u with _ | q
  · simp only
    rw [sessionAfterConnect_delivered env u _ hcut hok, lookupQ_setQ, if_pos rfl]
    rfl
  · simp only
    rw [sessionAfterConnect_delivered env u _ hcut hok, hl]

/-!
Producer calls append to the recipient queue.
-/

theorem enqueueReq_queue (reg : Registry) (u : String) (r : EnqReq)
    (hu : u ≠ "") (hv : ValidReq r) :
    enqueueReq reg u r = setQ reg u ((lookupQ reg u).getD [] ++ [reqCmd r]) := by
  cases r with
  | bot a pid now =>
      have ha : ¬(u = "" ∨ a = "") := by
        rintro (h | h)
        · exact hu h
        · exact hv h
      simp [enqueueReq, send_command, reqCmd, ha]
  | chat m mid now =>
      have hm : ¬(u = "" ∨ m = "") := by
        rintro (h | h)
        · exact hu h
        · exact hv h
      simp [enqueueReq, operator_reply, reqCmd, hm]

theorem enqueueAll_queue (u : String) (rs : List EnqReq) (hu : u ≠ "")
    (hv : ∀ r ∈ rs, ValidReq r) (reg : Registry) :
    (lookupQ (enqueueAll reg u rs) u).getD []
      = (lookupQ reg u).getD [] ++ rs.map reqCmd := by
  induction rs generalizing reg with
  | nil => simp [enqueueAll]
  | cons r rest ih =>
      rw [enqueueAll, enqueueReq_queue reg u r hu (hv r (List.mem_cons_self _ _)),
        ih (fun r hr => hv r (List.mem_cons_of_mem _ hr)),
        lookupQ_setQ, if_pos rfl]
      simp

/-- C1.  For any recipient and any sequence of well-formed commands
enqueued through `send_command` / `operator_reply` while no session is
open, a subsequently opened session whose sends succeed delivers exactly
those commands, in enqueue order, with zero loss and no duplication. -/
theorem backlog_fifo_delivery (u : String) (rs : List EnqReq) (env : SessionEnv)
    (hu : u ≠ "") (hv : ∀ r ∈ rs, ValidReq r)
    (hcut : env.drainCut = none) (hok : ∀ i, env.drainOk i = true) :
    deliveredCmds (openStream env u (enqueueAll [] u rs)).events = rs.map reqCmd := by
  rw [openStream_delivered_backlog env u _ hcut hok, enqueueAll_queue u rs hu hv []]
  simp [lookupQ]

theorem backlog_fifo_delivery_witness :
    deliveredCmds (openStream envAllOk "u1" (enqueueAll [] "u1" rsW)).events
      = rsW.map reqCmd :=
  backlog_fifo_delivery "u1" rsW envAllOk (by decide) (by decide) rfl (fun _ => rfl)

theorem count_connected_of_shape (l : List Event)
    (h : ∀ e ∈ l, (∃ ts, e = Event.heartbeat ts) ∨ ∃ c, e = Event.cmd c) :
    (Event.connected :: l).count Event.connected = 1 := by
  have hmem : Event.connected ∉ l := by
    intro hm
    rcases h _ hm with ⟨ts, he⟩ | ⟨c, he⟩ <;> simp at he
  rw [List.count_cons_self, List.count_eq_zero.mpr hmem]

/-- C4.  Every session's wire event sequence starts with exactly one
`connected` event, emitted before any queued command is drained or sent,
and no later event of the session is a `connected` event. -/
theorem connected_exactly_once (env : SessionEnv) (u : String) (reg : Registry) :
    (openStream env u reg).events.head? = some Event.connected
    ∧ (openStream env u reg).events.count Event.connected = 1 := by
  constructor
  · rw [openStream_events_eq]
    rfl
  · rw [openStream_events_eq]
    exact count_connected_of_shape _ (sessionAfterConnect_events_shape env u _)

/-- C3.  Session teardown on peer disconnect (the `except GeneratorExit`
and `BrokenPipeError` handlers and the `finally` block) performs no
mutation of the registry, and a later session for the same recipient
(whose sends succeed) delivers exactly the queue contents left at the
moment of disconnect. -/
theorem close_preserves_queue (env env2 : SessionEnv) (u : String) (reg : Registry)
    (hcut : env2.drainCut = none) (hok : ∀ i, env2.drainOk i = true) :
    (∀ r k, teardown r k = r)
    ∧ deliveredCmds (openStream env2 u (openStream env u reg).reg).events
        = (lookupQ (openStream env u reg).reg u).getD [] :=
  ⟨fun _ _ => rfl, openStream_delivered_backlog env2 u _ hcut hok⟩

theorem close_preserves_queue_witness :
    teardown regW "u1" = regW
    ∧ deliveredCmds (openStream envAllOk "u1" (openStream envAllOk "u1" regW).reg).events
        = (lookupQ (openStream envAllOk "u1" regW).reg "u1").getD [] :=
  ⟨(close_preserves_queue envAllOk envAllOk "u1" regW rfl (fun _ => rfl)).1 regW "u1",
   (close_preserves_queue envAllOk envAllOk "u1" regW rfl (fun _ => rfl)).2⟩

/-- C2 counterexample.  Queue `[cmdA, cmdB]`; the send of `cmdA` during
the connection-open drain fails.  The claim demands that `cmdA` be
reinserted at the front of the queue with `cmdB` re-pushed behind it
(queue `[cmdA, cmdB]`) and that the session terminate as if the peer had
disconnected.  In the code the failure handler (line 107) re-acquires
the non-reentrant `sse_lock` the session has held since line 89 and
blocks forever: the session deadlocks instead of reaching the CLOSED
teardown, nothing is delivered after `connected`, and the queue stays
empty — it was cleared at line 93 and the re-append at line 110 is never
reached, so `cmdA` and `cmdB` survive only in the hung thread's local
copy.  Neither the front-reinsertion nor the termination the claim
requires happens. -/
theorem drain_failure_not_front_requeue :
    (openStream envX "u1" regW).outcome = SessionOutcome.deadlocked
    ∧ deliveredCmds (openStream envX "u1" regW).events = []
    ∧ lookupQ (openStream envX "u1" regW).reg "u1" = some []
    ∧ some ([] : List Cmd) ≠ some [cmdA, cmdB]
    ∧ SessionOutcome.deadlocked ≠ SessionOutcome.closed := by
  refine ⟨by decide, by decide, by decide, by decide, by decide⟩

/-- C2 amended.  On a send failure during a steady-state poll burst the
popped command is reinserted at the front of the queue (line 151) and
the burst stops, but the session continues — only a heartbeat send
failure terminates the loop.  On a send failure during the
connection-open backlog drain the session instead deadlocks: the
handler at line 107 re-acquires the non-reentrant `sse_lock` it already
holds, so the drain emits exactly the successful sends before the first
failure, the failed command and the remainder are never requeued (the
queue keeps the empty value set at line 93), and the session never
reaches the CLOSED state. -/
theorem send_failure_requeue_behavior :
    (∀ (q : List Cmd) (ok : Nat → Bool) (i : Nat),
        drainSend q ok none i
          = ((q.take (okPrefixLen ok i q)).map Event.cmd,
             if okPrefixLen ok i q = q.length then DrainOutcome.completed
             else DrainOutcome.deadlocked))
    ∧ (∀ (env : SessionEnv) (u : String) (reg : Registry) (c : Cmd) (cs : List Cmd),
        lookupQ reg u = some (c :: cs) → env.drainCut = none →
        env.drainOk 0 = false →
        (openStream env u reg).outcome = SessionOutcome.deadlocked
        ∧ (openStream env u reg).events = [Event.connected]
        ∧ lookupQ (openStream env u reg).reg u = some [])
    ∧ (∀ (c : Cmd) (rest : List Cmd) (ok : Nat → Bool) (i : Nat), ok i = false →
        pollBurst (c :: rest) ok i = ([], c :: rest, i + 1))
    ∧ (∀ (env : SessionEnv) (s : SState), (steadyStep env s).2.2 = false →
        300 ≤ s.t - s.lastHb ∧ env.hbOk s.t = false) := by
  refine ⟨?_, ?_, ?_, ?_⟩
  · exact fun q ok i => drainSend_characterization q ok i
  · intro env u reg c cs hq hcut h0
    have hsac : sessionAfterConnect env u reg
        = ([], setQ reg u [], SessionOutcome.deadlocked) := by
      unfold sessionAfterConnect
      rw [hq]
      simp only [Option.getD_some, List.isEmpty_cons, Bool.false_eq_true, if_false]
      rw [hcut, drainSend_first_fail c cs env.drainOk 0 h0]
    refine ⟨?_, ?_, ?_⟩
    · rw [openStream_outcome_eq, hq]
      show (sessionAfterConnect env u reg).2.2 = SessionOutcome.deadlocked
      rw [hsac]
    · rw [openStream_events_eq, hq]
      show Event.connected :: (sessionAfterConnect env u reg).1 = [Event.connected]
      rw [hsac]
    · rw [openStream_reg_eq, hq]
      show lookupQ (sessionAfterConnect env u reg).2.1 u = some []
      rw [hsac]
      show lookupQ (setQ reg u []) u = some []
      rw [lookupQ_setQ, if_pos rfl]
  · intro c rest ok i h
    simp [pollBurst, h]
  · intro env s h
    unfold steadyStep at h
    by_cases hb : 300 ≤ s.t - s.lastHb
    · rw [if_pos hb] at h
      by_cases hok : env.hbOk s.t
      · rw [if_pos hok] at h
        unfold pollPhase at h
        by_cases hc : 1 ≤ s.t - s.lastCheck
        · rw [if_pos hc] at h
          simp at h
        · rw [if_neg hc] at h
          simp at h
      · exact ⟨hb, eq_false_of_ne_true hok⟩
    · rw [if_neg hb] at h
      unfold pollPhase at h
      by_cases hc : 1 ≤ s.t - s.lastCheck
      · rw [if_pos hc] at h
        simp at h
      · rw [if_neg hc] at h
        simp at h

theorem send_failure_requeue_behavior_witness :
    ((openStream envX "u1" regW).outcome = SessionOutcome.deadlocked
      ∧ (openStream envX "u1" regW).events = [Event.connected]
      ∧ lookupQ (openStream envX "u1" regW).reg "u1" = some [])
    ∧ pollBurst [cmdA] (fun _ => false) 0 = ([], [cmdA], 1)
    ∧ (300 ≤ sHb.t - sHb.lastHb ∧ envHbFail.hbOk sHb.t = false) :=
  ⟨send_failure_requeue_behavior.2.1 envX "u1" regW cmdA [cmdB] rfl rfl rfl,
   send_failure_requeue_behavior.2.2.1 cmdA [] (fun _ => false) 0 rfl,
   send_failure_requeue_behavior.2.2.2 envHbFail sHb (by decide)⟩

/-!
C8: heartbeat liveness on an idle session.
-/

theorem runSteady_succ_of_step (env : SessionEnv) (n : Nat) (s s' : SState)
    (evs : List Event) (h : steadyStep env s = (evs, s', true)) :
    runSteady env (n + 1) s
      = (evs ++ (runSteady env n s').1, (runSteady env n s').2) := by
  simp only [runSteady, h]

/-- With all heartbeat sends succeeding and an empty queue, the steady
loop emits a heartbeat at every tick `i` with `i - lastHb` a positive
multiple of 300, i.e. every 15 seconds. -/
theorem hb_mem_runSteady (env : SessionEnv) (hhb : ∀ i, env.hbOk i = true) (n : Nat) :
    ∀ t lastHb lc idx i : Nat,
      lastHb ≤ t → t ≤ lastHb + 300 → lastHb + 300 ≤ i → (i - lastHb) % 300 = 0 →
      i < t + n →
      Event.heartbeat (env.clock i) ∈ (runSteady env n ⟨t, lastHb, lc, idx, []⟩).1 := by
  induction n with
  | zero =>
      intro t lastHb lc idx i h1 h2 h3 h4 h6
      omega
  | succ n ih =>
      intro t lastHb lc idx i h1 h2 h3 h4 h6
      by_cases hb : 300 ≤ t - lastHb
      · have hhbT : env.hbOk t = true := hhb t
        by_cases hc : 1 ≤ t - lc
        · have hstep : steadyStep env ⟨t, lastHb, lc, idx, []⟩
              = ([Event.heartbeat (env.clock t)], ⟨t + 1, t, t, idx, []⟩, true) := by
            simp [steadyStep, pollPhase, hb, hhbT, hc, pollBurst_nil]
          rw [runSteady_succ_of_step env n _ _ _ hstep]
          by_cases hi : i = t
          · subst hi
            exact List.mem_append_left _ (List.mem_singleton.mpr rfl)
          · exact List.mem_append_right _
              (ih (t + 1) t t idx i (by omega) (by omega) (by omega) (by omega) (by omega))
        · have hstep : steadyStep env ⟨t, lastHb, lc, idx, []⟩
              = ([Event.heartbeat (env.clock t)], ⟨t + 1, t, lc, idx, []⟩, true) := by
            simp [steadyStep, pollPhase, hb, hhbT, hc, pollBurst_nil]
          rw [runSteady_succ_of_step env n _ _ _ hstep]
          by_cases hi : i = t
          · subst hi
            exact List.mem_append_left _ (List.mem_singleton.mpr rfl)
          · exact List.mem_append_right _
              (ih (t + 1) t lc idx i (by omega) (by omega) (by omega) (by omega) (by omega))
      · by_cases hc : 1 ≤ t - lc
        · have hstep : steadyStep env ⟨t, lastHb, lc, idx, []⟩
              = ([], ⟨t + 1, lastHb, t, idx, []⟩, true) := by
            simp [steadyStep, pollPhase, hb, hc, pollBurst_nil]
          rw [runSteady_succ_of_step env n _ _ _ hstep]
          exact List.mem_append_right _
            (ih (t + 1) lastHb t idx i (by omega) (by omega) h3 h4 (by omega))
        · have hstep : steadyStep env ⟨t, lastHb, lc, idx, []⟩
              = ([], ⟨t + 1, lastHb, lc, idx, []⟩, true) := by
            simp [steadyStep, pollPhase, hb, hc, pollBurst_nil]
          rw [runSteady_succ_of_step env n _ _ _ hstep]
          exact List.mem_append_right _
            (ih (t + 1) lastHb lc idx i (by omega) (by omega) h3 h4 (by omega))

/-- C8.  A session whose recipient queue is empty (and stays empty) emits
only heartbeat events after the initial `connected` event, and — one tick
being 50 ms — every window of 301 ticks (15.05 s, i.e. any window
exceeding the 15 s heartbeat interval) inside the connection's lifetime
contains a heartbeat carrying the clock value of its emission tick. -/
theorem heartbeat_liveness (env : SessionEnv) (u : String) (reg : Registry)
    (hq : (lookupQ reg u).getD [] = [])
    (hhb : ∀ i, env.hbOk i = true) :
    (∀ e ∈ (openStream env u reg).events.tail, ∃ ts, e = Event.heartbeat ts)
    ∧ ∀ t, t + 300 < env.ticks →
        ∃ i, t ≤ i ∧ i ≤ t + 300 ∧
          Event.heartbeat (env.clock i) ∈ (openStream env u reg).events := by
  have hreg1 : ∀ reg1 : Registry, (lookupQ reg1 u).getD [] = [] →
      (sessionAfterConnect env u reg1).1
        = (runSteady env env.ticks ⟨0, 0, 0, 0, []⟩).1 := by
    intro reg1 h1
    unfold sessionAfterConnect
    rw [h1]
    rfl
  rcases hl : lookupQ reg u with _ | q
  · have hq1 : (lookupQ (setQ reg u []) u).getD [] = [] := by
      rw [lookupQ_setQ, if_pos rfl]
      rfl
    have hev : (openStream env u reg).events
        = Event.connected :: (runSteady env env.ticks ⟨0, 0, 0, 0, []⟩).1 := by
      rw [openStream_events_eq, hl]
      simp only
      rw [hreg1 _ hq1]
    rw [hev]
    constructor
    · exact fun e he => (runSteady_empty env env.ticks _ rfl).1 e he
    · intro t ht
      by_cases h0 : t = 0
      · subst h0
        refine ⟨300, by omega, by omega, ?_⟩
        exact List.mem_cons_of_mem _
          (hb_mem_runSteady env hhb env.ticks 0 0 0 0 300 (by omega) (by omega)
            (by omega) (by omega) (by omega))
      · have hdm := Nat.div_add_mod (t + 299) 300
        have hr : (t + 299) % 300 < 300 := Nat.mod_lt _ (by norm_num)
        refine ⟨300 * ((t + 299) / 300), by omega, by omega, ?_⟩
        exact List.mem_cons_of_mem _
          (hb_mem_runSteady env hhb env.ticks 0 0 0 0 (300 * ((t + 299) / 300))
            (by omega) (by omega) (by omega)
            (by simpa using Nat.mul_mod_right 300 ((t + 299) / 300)) (by omega))
  · have hqe : q = [] := by
      rw [hl] at hq
      exact hq
    subst hqe
    have hev : (openStream env u reg).events
        = Event.connected :: (runSteady env env.ticks ⟨0, 0, 0, 0, []⟩).1 := by
      rw [openStream_events_eq, hl]
      simp only
      rw [hreg1 _ (by rw [hl]; rfl)]
    rw [hev]
    constructor
    · exact fun e he => (runSteady_empty env env.ticks _ rfl).1 e he
    · intro t ht
      by_cases h0 : t = 0
      · subst h0
        refine ⟨300, by omega, by omega, ?_⟩
        exact List.mem_cons_of_mem _
          (hb_mem_runSteady env hhb env.ticks 0 0 0 0 300 (by omega) (by omega)
            (by omega) (by omega) (by omega))
      · have hdm := Nat.div_add_mod (t + 299) 300
        have hr : (t + 299) % 300 < 300 := Nat.mod_lt _ (by norm_num)
        refine ⟨300 * ((t + 299) / 300), by omega, by omega, ?_⟩
        exact List.mem_cons_of_mem _
          (hb_mem_runSteady env hhb env.ticks 0 0 0 0 (300 * ((t + 299) / 300))
            (by omega) (by omega) (by omega)
            (by simpa using Nat.mul_mod_right 300 ((t + 299) / 300)) (by omega))

theorem heartbeat_liveness_witness :
    ∃ i, 0 ≤ i ∧ i ≤ 300 ∧
      Event.heartbeat (envTicks.clock i) ∈ (openStream envTicks "u1" []).events :=
  (heartbeat_liveness envTicks "u1" [] rfl (fun _ => rfl)).2 0 (by decide)

/-!
Every atomic step either leaves the registry unchanged or rewrites one
key with `setQ`; keys are therefore never removed.
-/

theorem applyOp_shape (reg : Registry) (op : DispatcherOp) :
    applyOp reg op = reg ∨ ∃ u q, applyOp reg op = setQ reg u q := by
  cases op with
  | enqueueBot u a pid now =>
      cases a with
      | none => exact Or.inl rfl
      | some a =>
          by_cases h : u = "" ∨ a = ""
          · exact Or.inl (by simp [applyOp, send_command, h])
          · refine Or.inr ⟨u, (lookupQ reg u).getD [] ++ [mkBotCommand a pid now], ?_⟩
            simp [applyOp, send_command, h]
  | enqueueChat u m mid now dbOk =>
      cases m with
      | none => exact Or.inl rfl
      | some m =>
          by_cases h : u = "" ∨ m = ""
          · exact Or.inl (by simp [applyOp, operator_reply, h])
          · cases dbOk with
            | false => exact Or.inl (by simp [applyOp, operator_reply, h])
            | true =>
                refine Or.inr ⟨u, (lookupQ reg u).getD [] ++ [mkChatMessage m mid now], ?_⟩
                simp [applyOp, operator_reply, h]
  | register u =>
      rcases hl : lookupQ reg u with _ | q
      · exact Or.inr ⟨u, [], by simp [applyOp, hl]⟩
      · exact Or.inl (by simp [applyOp, hl])
  | drain u ok cut =>
      rcases hl : (lookupQ reg u).getD [] with _ | ⟨c, rest⟩
      · exact Or.inl (by simp [applyOp, hl])
      · exact Or.inr ⟨u, [], by simp [applyOp, hl]⟩
  | poll u ok idx =>
      rcases hl : (lookupQ reg u).getD [] with _ | ⟨c, rest⟩
      · exact Or.inl (by simp [applyOp, hl])
      · exact Or.inr ⟨u, (pollBurst (c :: rest) ok idx).2.1, by simp [applyOp, hl]⟩
  | close u => exact Or.inl rfl

theorem mem_keysOf_applyOp (reg : Registry) (op : DispatcherOp) (k : String)
    (h : k ∈ keysOf reg) : k ∈ keysOf (applyOp reg op) := by
  rcases applyOp_shape reg op with heq | ⟨u, q, heq⟩
  · rw [heq]; exact h
  · rw [heq]; exact mem_keysOf_setQ reg u k q h

theorem nodup_keysOf_applyOp (reg : Registry) (op : DispatcherOp)
    (h : (keysOf reg).Nodup) : (keysOf (applyOp reg op)).Nodup := by
  rcases applyOp_shape reg op with heq | ⟨u, q, heq⟩
  · rw [heq]; exact h
  · rw [heq]; exact nodup_keysOf_setQ reg u q h

theorem length_le_applyOp (reg : Registry) (op : DispatcherOp) :
    reg.length ≤ (applyOp reg op).length := by
  rcases applyOp_shape reg op with heq | ⟨u, q, heq⟩
  · rw [heq]
  · rw [heq]; exact length_setQ reg u q

theorem mem_keysOf_runOps (reg : Registry) (ops : List DispatcherOp) (k : String)
    (h : k ∈ keysOf reg) : k ∈ keysOf (runOps reg ops) := by
  induction ops generalizing reg with
  | nil => exact h
  | cons op rest ih => exact ih (applyOp reg op) (mem_keysOf_applyOp reg op k h)

theorem nodup_keysOf_runOps (reg : Registry) (ops : List DispatcherOp)
    (h : (keysOf reg).Nodup) : (keysOf (runOps reg ops)).Nodup := by
  induction ops generalizing reg with
  | nil => exact h
  | cons op rest ih => exact ih (applyOp reg op) (nodup_keysOf_applyOp reg op h)

theorem length_le_runOps (reg : Registry) (ops : List DispatcherOp) :
    reg.length ≤ (runOps reg ops).length := by
  induction ops generalizing reg with
  | nil => exact Nat.le_refl _
  | cons op rest ih =>
      exact Nat.le_trans (length_le_applyOp reg op) (ih (applyOp reg op))

theorem creations_eq_zero_of_mem (ops : List DispatcherOp) (reg : Registry)
    (k : String) (h : k ∈ keysOf reg) : creations reg ops k = 0 := by
  induction ops generalizing reg with
  | nil => rfl
  | cons op rest ih =>
      unfold creations
      rw [if_neg (fun hc => hc.1 h), ih (applyOp reg op) (mem_keysOf_applyOp reg op k h)]

theorem creations_le_one (ops : List DispatcherOp) (reg : Registry) (k : String) :
    creations reg ops k ≤ 1 := by
  induction ops generalizing reg with
  | nil => exact Nat.zero_le 1
  | cons op rest ih =>
      unfold creations
      by_cases hc : k ∉ keysOf reg ∧ k ∈ keysOf (applyOp reg op)
      · rw [if_pos hc, creations_eq_zero_of_mem rest (applyOp reg op) k hc.2]
      · rw [if_neg hc]
        simpa using ih (applyOp reg op)

/-- C5.  Over any interleaving of atomic dispatcher steps (each critical
section under `sse_lock` is one step, so check-then-create is atomic)
the registry keeps at most one queue per recipient key, and at most one
step of the whole trace ever creates the entry for a given key; once
present, the key survives every later step, so all callers operate on
that single queue. -/
theorem registry_single_queue_per_key (reg₀ : Registry) (ops : List DispatcherOp)
    (k : String) (hnd : (keysOf reg₀).Nodup) :
    (keysOf (runOps reg₀ ops)).Nodup
    ∧ creations reg₀ ops k ≤ 1
    ∧ (k ∈ keysOf reg₀ → k ∈ keysOf (runOps reg₀ ops)) :=
  ⟨nodup_keysOf_runOps reg₀ ops hnd, creations_le_one ops reg₀ k,
   mem_keysOf_runOps reg₀ ops k⟩

theorem registry_single_queue_per_key_witness :
    (keysOf (runOps regW opsW)).Nodup
    ∧ creations regW opsW "u1" ≤ 1
    ∧ "u1" ∈ keysOf (runOps regW opsW) :=
  ⟨(registry_single_queue_per_key regW opsW "u1" (by decide)).1,
   (registry_single_queue_per_key regW opsW "u1" (by decide)).2.1,
   (registry_single_queue_per_key regW opsW "u1" (by decide)).2.2 (by decide)⟩

theorem length_setQ_mem (reg : Registry) (k : String) (q : List Cmd)
    (h : k ∈ keysOf reg) : (setQ reg k q).length = reg.length := by
  have h1 : (keysOf (setQ reg k q)).length = (keysOf reg).length := by
    rw [keysOf_setQ_mem reg k q h]
  simpa [keysOf] using h1

theorem lookupQ_isSome_of_mem (reg : Registry) (k : String)
    (h : k ∈ keysOf reg) : ∃ q, lookupQ reg k = some q := by
  rcases hl : lookupQ reg k with _ | q
  · exact absurd ((lookupQ_eq_none_iff reg k).mp hl) (fun hn => hn h)
  · exact ⟨q, rfl⟩

/-- C10.  No dispatcher step ever removes a registry entry: keys only
accumulate, the health query's `recipientCount` is non-decreasing over
any trace, and a fully successful drain keeps the recipient's key with
an empty queue — the emptied recipient still counts. -/
theorem registry_never_evicts (reg₀ : Registry) (ops : List DispatcherOp) :
    (∀ k, k ∈ keysOf reg₀ → k ∈ keysOf (runOps reg₀ ops))
    ∧ (health reg₀).1 ≤ (health (runOps reg₀ ops)).1
    ∧ ∀ (u : String) (ok : Nat → Bool), (∀ i, ok i = true) → u ∈ keysOf reg₀ →
        u ∈ keysOf (applyOp reg₀ (DispatcherOp.drain u ok none))
        ∧ lookupQ (applyOp reg₀ (DispatcherOp.drain u ok none)) u = some []
        ∧ (health (applyOp reg₀ (DispatcherOp.drain u ok none))).1 = (health reg₀).1 := by
  refine ⟨fun k h => mem_keysOf_runOps reg₀ ops k h, length_le_runOps reg₀ ops, ?_⟩
  intro u ok hok hu
  obtain ⟨q, hq⟩ := lookupQ_isSome_of_mem reg₀ u hu
  cases q with
  | nil =>
      have happ : applyOp reg₀ (DispatcherOp.drain u ok none) = reg₀ := by
        simp [applyOp, hq]
      rw [happ]
      exact ⟨hu, hq, rfl⟩
  | cons c rest =>
      have hgd : (lookupQ reg₀ u).getD [] = c :: rest := by rw [hq]; rfl
      have happ : applyOp reg₀ (DispatcherOp.drain u ok none) = setQ reg₀ u [] := by
        simp [applyOp, hgd]
      rw [happ]
      refine ⟨mem_keysOf_setQ reg₀ u u [] hu, ?_, ?_⟩
      · rw [lookupQ_setQ, if_pos rfl]
      · show (setQ reg₀ u []).length = reg₀.length
        exact length_setQ_mem reg₀ u [] hu

theorem registry_never_evicts_witness :
    "u1" ∈ keysOf (applyOp regW (DispatcherOp.drain "u1" (fun _ => true) none))
    ∧ lookupQ (applyOp regW (DispatcherOp.drain "u1" (fun _ => true) none)) "u1" = some []
    ∧ (health (applyOp regW (DispatcherOp.drain "u1" (fun _ => true) none))).1
        = (health regW).1 :=
  (registry_never_evicts regW opsW).2.2 "u1" (fun _ => true) (fun _ => rfl) (by decide)

/-- C6.  A malformed enqueue request (missing recipient identifier, or
missing action / message payload) is answered with HTTP 400 and an error
body by both producer endpoints, and the registry — hence every
recipient queue — is left completely unchanged. -/
theorem malformed_enqueue_rejected (reg : Registry)
    (uid act pid : Option String) (now : PyDateTime)
    (uid2 msg : Option String) (mid : String) (now2 : PyDateTime) (dbOk : Bool)
    (h1 : isMissing uid = true ∨ isMissing act = true)
    (h2 : isMissing uid2 = true ∨ isMissing msg = true) :
    ((send_command reg uid act pid now).status = 400
      ∧ (send_command reg uid act pid now).error.isSome = true
      ∧ (send_command reg uid act pid now).reg = reg)
    ∧ ((operator_reply reg uid2 msg mid now2 dbOk).status = 400
      ∧ (operator_reply reg uid2 msg mid now2 dbOk).error.isSome = true
      ∧ (operator_reply reg uid2 msg mid now2 dbOk).reg = reg) := by
  constructor
  · cases uid with
    | none => exact ⟨rfl, rfl, rfl⟩
    | some u =>
        cases act with
        | none => exact ⟨rfl, rfl, rfl⟩
        | some a =>
            have hcond : u = "" ∨ a = "" := by
              rcases h1 with h | h
              · exact Or.inl (by simpa [isMissing] using h)
              · exact Or.inr (by simpa [isMissing] using h)
            simp [send_command, hcond]
  · cases uid2 with
    | none => exact ⟨rfl, rfl, rfl⟩
    | some u =>
        cases msg with
        | none => exact ⟨rfl, rfl, rfl⟩
        | some m =>
            have hcond : u = "" ∨ m = "" := by
              rcases h2 with h | h
              · exact Or.inl (by simpa [isMissing] using h)
              · exact Or.inr (by simpa [isMissing] using h)
            simp [operator_reply, hcond]

theorem malformed_enqueue_rejected_witness :
    ((send_command [] none (some "sms") none dtW).status = 400
      ∧ (send_command [] none (some "sms") none dtW).error.isSome = true
      ∧ (send_command [] none (some "sms") none dtW).reg = [])
    ∧ ((operator_reply [] (some "u1") (some "") "m" dtW true).status = 400
      ∧ (operator_reply [] (some "u1") (some "") "m" dtW true).error.isSome = true
      ∧ (operator_reply [] (some "u1") (some "") "m" dtW true).reg = []) :=
  malformed_enqueue_rejected [] none (some "sms") none dtW (some "u1") (some "") "m"
    dtW true (Or.inl rfl) (Or.inr rfl)

/-!
C7: the health query.
-/

theorem health_total_eq : ∀ reg : Registry, (keysOf reg).Nodup →
    (health reg).2 = ((keysOf reg).map (sizeOfQ reg)).sum := by
  intro reg
  induction reg with
  | nil => intro _; rfl
  | cons p rest ih =>
      intro hnd
      obtain ⟨k, q⟩ := p
      rw [keysOf_cons] at hnd
      have hk : k ∉ keysOf rest := (List.nodup_cons.mp hnd).1
      have hnd2 : (keysOf rest).Nodup := (List.nodup_cons.mp hnd).2
      have hself : sizeOfQ ((k, q) :: rest) k = q.length := by
        simp [sizeOfQ, lookupQ]
      have hothers : ∀ x ∈ keysOf rest, sizeOfQ rest x = sizeOfQ ((k, q) :: rest) x := by
        intro x hx
        have hxk : ¬ k = x := fun hh => hk (hh ▸ hx)
        simp [sizeOfQ, lookupQ, hxk]
      calc (health ((k, q) :: rest)).2
          = q.length + (health rest).2 := by simp [health]
        _ = q.length + ((keysOf rest).map (sizeOfQ rest)).sum := by rw [ih hnd2]
        _ = sizeOfQ ((k, q) :: rest) k
              + ((keysOf rest).map (sizeOfQ ((k, q) :: rest))).sum := by
            rw [hself, List.map_congr_left hothers]
        _ = ((keysOf ((k, q) :: rest)).map (sizeOfQ ((k, q) :: rest))).sum := by
            rw [keysOf_cons]
            simp

/-- C7.  The health query reports `recipientCount` equal to the number of
recipient identifiers present in the registry and `totalPendingCommands`
equal to the sum of all backlog lengths; a recipient for which no queue
was ever created is not an error — its backlog size is zero and it
contributes nothing to either count. -/
theorem health_counts (reg : Registry) (hnd : (keysOf reg).Nodup) :
    (health reg).1 = (keysOf reg).length
    ∧ (health reg).2 = ((keysOf reg).map (sizeOfQ reg)).sum
    ∧ ∀ r, r ∉ keysOf reg → sizeOfQ reg r = 0 := by
  refine ⟨?_, health_total_eq reg hnd, ?_⟩
  · simp [health, keysOf]
  · intro r hr
    simp [sizeOfQ, (lookupQ_eq_none_iff reg r).mpr hr]

theorem health_counts_witness :
    (health regW).1 = (keysOf regW).length
    ∧ (health regW).2 = ((keysOf regW).map (sizeOfQ regW)).sum
    ∧ sizeOfQ regW "u2" = 0 :=
  ⟨(health_counts regW (by decide)).1, (health_counts regW (by decide)).2.1,
   (health_counts regW (by decide)).2.2 "u2" (by decide)⟩

/-!
C9: every queued command is a well-formed dispatcher command.
-/

theorem isDigit_digitChar (n : Nat) : (digitChar n).isDigit = true := by
  have h : n % 10 < 10 := Nat.mod_lt _ (by norm_num)
  unfold digitChar
  set m := n % 10 with hm
  interval_cases m <;> decide

theorem isoformat_iso (dt : PyDateTime) (h : ValidDT dt) :
    isIso8601 (isoformat dt) = true := by
  obtain ⟨y, mo, d, hh, mi, s, us⟩ := dt
  by_cases hus : us = 0
  · simp [isoformat, isIso8601, pad4, pad2, pad6, hus, isDigit_digitChar]
  · simp [isoformat, isIso8601, pad4, pad2, pad6, hus, isDigit_digitChar]

theorem goodCmd_mkBotCommand (a : String) (pid : Option String) (now : PyDateTime)
    (h : ValidDT now) : goodCmd (mkBotCommand a pid now) :=
  ⟨Or.inl rfl, isoformat now, rfl, isoformat_iso now h⟩

theorem goodCmd_mkChatMessage (m mid : String) (now : PyDateTime)
    (h : ValidDT now) : goodCmd (mkChatMessage m mid now) :=
  ⟨Or.inr rfl, isoformat now, rfl, isoformat_iso now h⟩

theorem GoodReg_setQ (reg : Registry) (u : String) (q : List Cmd)
    (hg : GoodReg reg) (hq : ∀ c ∈ q, goodCmd c) : GoodReg (setQ reg u q) := by
  intro k q' hl c hc
  rw [lookupQ_setQ] at hl
  by_cases h : u = k
  · rw [if_pos h] at hl
    cases hl
    exact hq c hc
  · rw [if_neg h] at hl
    exact hg k q' hl c hc

theorem GoodReg_backlog (reg : Registry) (u : String) (hg : GoodReg reg) :
    ∀ c ∈ (lookupQ reg u).getD [], goodCmd c := by
  intro c hc
  rcases hl : lookupQ reg u with _ | qold
  · rw [hl] at hc
    simp at hc
  · rw [hl] at hc
    exact hg u qold hl c hc

theorem GoodReg_applyOp (reg : Registry) (op : DispatcherOp)
    (hg : GoodReg reg) (hv : opValid op) : GoodReg (applyOp reg op) := by
  cases op with
  | enqueueBot u a pid now =>
      cases a with
      | none => exact hg
      | some a =>
          by_cases h : u = "" ∨ a = ""
          · have heq : applyOp reg (DispatcherOp.enqueueBot u (some a) pid now) = reg := by
              simp [applyOp, send_command, h]
            rw [heq]
            exact hg
          · have heq : applyOp reg (DispatcherOp.enqueueBot u (some a) pid now)
                = setQ reg u ((lookupQ reg u).getD [] ++ [mkBotCommand a pid now]) := by
              simp [applyOp, send_command, h]
            rw [heq]
            refine GoodReg_setQ reg u _ hg ?_
            intro c hc
            rcases List.mem_append.mp hc with hc1 | hc1
            · exact GoodReg_backlog reg u hg c hc1
            · rw [List.mem_singleton.mp hc1]
              exact goodCmd_mkBotCommand a pid now hv
  | enqueueChat u m mid now dbOk =>
      cases m with
      | none => exact hg
      | some m =>
          by_cases h : u = "" ∨ m = ""
          · have heq : applyOp reg (DispatcherOp.enqueueChat u (some m) mid now dbOk) = reg := by
              simp [applyOp, operator_reply, h]
            rw [heq]
            exact hg
          · cases dbOk with
            | false =>
                have heq : applyOp reg
                    (DispatcherOp.enqueueChat u (some m) mid now false) = reg := by
                  simp [applyOp, operator_reply, h]
                rw [heq]
                exact hg
            | true =>
                have heq : applyOp reg (DispatcherOp.enqueueChat u (some m) mid now true)
                    = setQ reg u ((lookupQ reg u).getD [] ++ [mkChatMessage m mid now]) := by
                  simp [applyOp, operator_reply, h]
                rw [heq]
                refine GoodReg_setQ reg u _ hg ?_
                intro c hc
                rcases List.mem_append.mp hc with hc1 | hc1
                · exact GoodReg_backlog reg u hg c hc1
                · rw [List.mem_singleton.mp hc1]
                  exact goodCmd_mkChatMessage m mid now hv
  | register u =>
      rcases hl : lookupQ reg u with _ | q0
      · have heq : applyOp reg (DispatcherOp.register u) = setQ reg u [] := by
          simp [applyOp, hl]
        rw [heq]
        exact GoodReg_setQ reg u [] hg (by simp)
      · have heq : applyOp reg (DispatcherOp.register u) = reg := by
          simp [applyOp, hl]
        rw [heq]
        exact hg
  | drain u ok cut =>
      rcases hl : (lookupQ reg u).getD [] with _ | ⟨c0, rest⟩
      · have heq : applyOp reg (DispatcherOp.drain u ok cut) = reg := by
          simp [applyOp, hl]
        rw [heq]
        exact hg
      · have heq : applyOp reg (DispatcherOp.drain u ok cut) = setQ reg u [] := by
          simp [applyOp, hl]
        rw [heq]
        exact GoodReg_setQ reg u [] hg (by simp)
  | poll u ok idx =>
      rcases hl : (lookupQ reg u).getD [] with _ | ⟨c0, rest⟩
      · have heq : applyOp reg (DispatcherOp.poll u ok idx) = reg := by
          simp [applyOp, hl]
        rw [heq]
        exact hg
      · have heq : applyOp reg (DispatcherOp.poll u ok idx)
            = setQ reg u (pollBurst (c0 :: rest) ok idx).2.1 := by
          simp [applyOp, hl]
        rw [heq]
        refine GoodReg_setQ reg u _ hg ?_
        intro c hc
        have hcq : c ∈ c0 :: rest := pollBurst_mem_left _ ok idx c hc
        exact GoodReg_backlog reg u hg c (hl ▸ hcq)
  | close u => exact hg

theorem GoodReg_runOps (ops : List DispatcherOp) (reg : Registry)
    (hg : GoodReg reg) (hv : ∀ op ∈ ops, opValid op) : GoodReg (runOps reg ops) := by
  induction ops generalizing reg with
  | nil => exact hg
  | cons op rest ih =>
      exact ih (applyOp reg op)
        (GoodReg_applyOp reg op hg (hv op (List.mem_cons_self _ _)))
        (fun o ho => hv o (List.mem_cons_of_mem _ ho))

/-- C9.  After any trace of dispatcher steps (producer enqueues with
valid wall-clock readings, session registers, drains, poll bursts with
their requeues, teardowns) starting from the empty registry, every
command held in every recipient queue carries a `type` field equal to
`bot_command` or `chat_message` and a `timestamp` field holding an
ISO-8601 string. -/
theorem queued_commands_wellformed (ops : List DispatcherOp)
    (hv : ∀ op ∈ ops, opValid op) :
    ∀ k q, lookupQ (runOps [] ops) k = some q → ∀ c ∈ q, goodCmd c := by
  refine GoodReg_runOps ops [] ?_ hv
  intro k q hl
  simp [lookupQ] at hl

theorem queued_commands_wellformed_witness : goodCmd cmdA :=
  queued_commands_wellformed opsV (by decide) "u1" [cmdA] rfl cmdA
    (List.mem_singleton.mpr rfl)
